import Mathlib

/-!
Verification of the face-clustering engine (`modules/face/cluster.py`), the
identity-map representative selection (`modules/face/analyser.py`) and the
frame-processor registry with its batched scheduler
(`modules/processors/registry.py`) of the Deep-Live-Cam repository.

Embedding conventions:
* numpy 1-d float arrays are modelled as `List ℚ` (exact rational arithmetic
  in place of IEEE floats; the verified claims are about order, selection and
  partition logic, not rounding);
* external collaborators (`sklearn.cluster.KMeans`, `importlib`,
  `cv2.imread`, the insightface face analyser, the image crop) are
  parameters of the embedded functions; theorems state explicitly the
  contract they assume of them;
* Python `sys.exit()` (a raised, possibly caught, `SystemExit`) is modelled
  by `Except Unit`, `.error ()` being the exit;
* the `ThreadPoolExecutor` of `multi_process_frame` is modelled by
  sequential execution of the submitted batches in submission order; none of
  the verified claims concerns completion order.
-/

/-- A numpy 1-d float vector: a face embedding or one centroid row. -/
abbrev Vec := List ℚ

/-- Dot product of two equal-length 1-d vectors (`centroids_arr @
embedding_arr` applies it row-wise). -/
def dot (a b : Vec) : ℚ := ((a.zip b).map fun p => p.1 * p.2).sum

/-- Scanning loop of `np.argmax`: keeps the first index whose value is
maximal (numpy returns the first occurrence of the maximum). -/
def argmaxGo (best : ℕ) (bestv : ℚ) (i : ℕ) : List ℚ → ℕ
  | [] => best
  | y :: ys => if bestv < y then argmaxGo i y (i + 1) ys else argmaxGo best bestv (i + 1) ys

/-- Model of `np.argmax` on a 1-d array (`0` on the empty array, on which
numpy raises instead; all uses below are on non-empty arrays). -/
def npArgmax : List ℚ → ℕ
  | [] => 0
  | x :: xs => argmaxGo 0 x 1 xs

/-- Scanning loop of `np.argmin`: keeps the first index whose value is
minimal. -/
def argminGo (best : ℕ) (bestv : ℚ) (i : ℕ) : List ℚ → ℕ
  | [] => best
  | y :: ys => if y < bestv then argminGo i y (i + 1) ys else argminGo best bestv (i + 1) ys

/-- Model of `np.argmin` on a 1-d array (`0` on the empty array, on which
numpy raises instead; all uses below are on non-empty arrays). -/
def npArgmin : List ℚ → ℕ
  | [] => 0
  | x :: xs => argminGo 0 x 1 xs

/-- Statement that `r` is the first index of `l` holding the maximum value. -/
def IsFirstMax (l : List ℚ) (r : ℕ) : Prop :=
  r < l.length ∧ (∀ j < l.length, l.getD j 0 ≤ l.getD r 0) ∧ ∀ j < r, l.getD j 0 < l.getD r 0

/-- Statement that `r` is the first index of `l` holding the minimum value. -/
def IsFirstMin (l : List ℚ) (r : ℕ) : Prop :=
  r < l.length ∧ (∀ j < l.length, l.getD r 0 ≤ l.getD j 0) ∧ ∀ j < r, l.getD r 0 < l.getD j 0

/-- Model of `np.diff` on a 1-d array: successive differences
`l[i+1] - l[i]`. -/
def npDiff : List ℚ → List ℚ
  | x :: y :: rest => (y - x) :: npDiff (y :: rest)
  | _ => []

/-- Model of `find_closest_centroid` from `modules/face/cluster.py`.  The
Python argument may be `None`, hence the `Option`; `similarities` is the
row-wise dot product `centroids_arr @ embedding_arr`.  The final Python
index access `centroids_arr[closest_idx]` is total because
`closest_idx < len(centroids_arr)` (proved below); `getD` supplies an
unreachable default. -/
def find_closest_centroid (centroids : Option (List Vec)) (normed_face_embedding : Vec) :
    Option (ℕ × Vec) :=
  match centroids with
  | none => none
  | some cs =>
    if cs.length = 0 then none
    else
      let similarities := cs.map fun c => dot c normed_face_embedding
      let closest_idx := npArgmax similarities
      some (closest_idx, cs.getD closest_idx [])

/-- The two fields of a fitted `sklearn.cluster.KMeans` that
`find_cluster_centroids` reads: `inertia_` and `cluster_centers_`. -/
structure KMeansResult where
  inertia : ℚ
  cluster_centers : List Vec

/-- A KMeans fit oracle: `fit k data` stands for
`KMeans(n_clusters=k, random_state=0, n_init=10).fit(data)`.  The library
call is external to the repository; each theorem states the contract it
relies on (e.g. that a fit with `n_clusters = k` yields `k` rows in
`cluster_centers_`). -/
abbrev FitFn := ℕ → List Vec → KMeansResult

/-- The `for k in range(1, max_k + 1)` loop of `find_cluster_centroids`:
accumulates `inertias` and `all_centroids` in loop order and reports the
early-exit value when `kmeans.inertia_ < 1e-6` fires. -/
def clusterScan (fit : FitFn) (arr : List Vec) :
    List ℕ → List ℚ × List (List Vec) × Option (List Vec)
  | [] => ([], [], none)
  | k :: ks =>
    let r := fit k arr
    if r.inertia < 1 / 1000000 then
      ([r.inertia], [r.cluster_centers], some r.cluster_centers)
    else
      let rest := clusterScan fit arr ks
      (r.inertia :: rest.1, r.cluster_centers :: rest.2.1, rest.2.2)

/-- Model of `find_cluster_centroids` from `modules/face/cluster.py`, with
the external KMeans fit abstracted as `fit`.  The Python default of the
keyword argument is `max_k = 10`; the shadowing assignment
`max_k = min(max_k, n_samples)` is rendered as `max_k2`.  The final Python
accesses `all_centroids[0]` and `all_centroids[optimal_k_idx + 1]` are
total because their indices are in range (proved below); `getD` supplies an
unreachable default. -/
def find_cluster_centroids (fit : FitFn) (embeddings : List Vec) (max_k : ℤ) : List Vec :=
  if embeddings.length = 0 then []
  else
    let n_samples := embeddings.length
    if n_samples = 1 then embeddings
    else if n_samples ≤ 2 then embeddings
    else
      let max_k2 := min max_k (n_samples : ℤ)
      if max_k2 < 2 then embeddings
      else
        match clusterScan fit embeddings ((List.range max_k2.toNat).map (· + 1)) with
        | (_, _, some early) => early
        | (inertias, all_centroids, none) =>
          if inertias.length < 2 then all_centroids.getD 0 []
          else
            let diffs := npDiff inertias
            let optimal_k_idx := npArgmin diffs
            all_centroids.getD (optimal_k_idx + 1) []

/-- A concrete KMeans stand-in used for closed instances: every fit reports
inertia `1` (so the `1e-6` early exit never fires) and `k` copies of the
first data row as its `k` cluster centers. -/
def constFit : FitFn := fun k arr => ⟨1, List.replicate k (arr.headD [])⟩

/-- Value of `BATCH_SIZE` in `modules/processors/registry.py`: batch size
for frame processing. -/
def BATCH_SIZE : ℕ := 8

/-- The batch comprehension of `multi_process_frame`:
`[temp_frame_paths[i : i + BATCH_SIZE] for i in range(0, total_frames,
BATCH_SIZE)]`.  `range(0, N, B)` enumerates `i = B * j` for
`j < ceil(N / B) = (N + B - 1) / B`, and the slice `[i : i + B]` is
`drop i` then `take B`. -/
def mkBatches (temp_frame_paths : List String) : List (List String) :=
  (List.range ((temp_frame_paths.length + BATCH_SIZE - 1) / BATCH_SIZE)).map
    fun j => (temp_frame_paths.drop (j * BATCH_SIZE)).take BATCH_SIZE

/-- Model of `multi_process_frame` from `modules/processors/registry.py`.
The per-batch callable `process_frames` may raise, modelled as
`Except ε Unit`.  The `ThreadPoolExecutor` futures dictionary maps each
submitted batch to its outcome; the `as_completed` loop with its
`try/except` around `future.result()` turns a raised exception into a
printed per-batch error, so the outcome of a batch is recorded (`some e`
for a failure, `none` for success) and never propagated.  Execution is
modelled sequentially in submission order. -/
def multi_process_frame {ε : Type} (process_frames : String → List String → Except ε Unit)
    (source_path : String) (temp_frame_paths : List String) :
    List (List String × Option ε) :=
  (mkBatches temp_frame_paths).map fun batch =>
    (batch,
      match process_frames source_path batch with
      | .ok _ => none
      | .error e => some e)

/-- A frame-processor module as the registry inspects it: its short module
name (the last dotted component of Python `__name__`; every candidate is
imported as `modules.processors.frame.<name>`, so `__name__.split(".")[-1]`
and `__name__.endswith("." + name)` both reduce to this field) and, for
each of the five interface methods, whether `hasattr` finds it. -/
structure PyModule where
  name : String
  has_pre_check : Bool
  has_pre_start : Bool
  has_process_frame : Bool
  has_process_image : Bool
  has_process_video : Bool
deriving DecidableEq

/-- Value of `FRAME_PROCESSORS_INTERFACE` in
`modules/processors/registry.py`. -/
def FRAME_PROCESSORS_INTERFACE : List String :=
  ["pre_check", "pre_start", "process_frame", "process_image", "process_video"]

/-- Python `hasattr(frame_processor_module, method_name)` for the five
interface names (any other name is absent). -/
def hasattr (m : PyModule) (attr : String) : Bool :=
  if attr = "pre_check" then m.has_pre_check
  else if attr = "pre_start" then m.has_pre_start
  else if attr = "process_frame" then m.has_process_frame
  else if attr = "process_image" then m.has_process_image
  else if attr = "process_video" then m.has_process_video
  else false

/-- Model of `load_frame_processor_module` from
`modules/processors/registry.py`.  `imp` stands for
`importlib.import_module("modules.processors.frame." + name)`: `none` is an
`ImportError` (caught: the function prints and calls `sys.exit()`), and a
missing interface method triggers `sys.exit()` at the first miss — either
way the result is `.error ()`; checking all five methods at once yields the
same result as exiting at the first missing one. -/
def load_frame_processor_module (imp : String → Option PyModule) (frame_processor : String) :
    Except Unit PyModule :=
  match imp frame_processor with
  | none => .error ()
  | some m =>
    if FRAME_PROCESSORS_INTERFACE.all (fun method_name => hasattr m method_name) then .ok m
    else .error ()

/-- The mutable registry globals the two registry entry points read and
write: `FRAME_PROCESSORS_MODULES`, `config.frame_processors` and
`config.fp_ui` (an insertion-ordered dict, modelled as an association
list). -/
structure RegistryState where
  modules : List PyModule
  frame_processors : List String
  fp_ui : List (String × Bool)
deriving DecidableEq

/-- The initial-population loop of `get_frame_processors_modules`: load
each configured name in order and append.  A `sys.exit()` raised by
`load_frame_processor_module` is not caught here, so it aborts the whole
call. -/
def loadAll (imp : String → Option PyModule) : List String → Except Unit (List PyModule)
  | [] => .ok []
  | fp :: fps =>
    match load_frame_processor_module imp fp with
    | Except.error e => Except.error e
    | Except.ok m =>
      match loadAll imp fps with
      | Except.error e => Except.error e
      | Except.ok ms => Except.ok (m :: ms)

/-- The removal step of `set_frame_processors_modules_from_ui`:
`next((m for m in FRAME_PROCESSORS_MODULES if
m.__name__.endswith("." + frame_processor)), None)` followed by
`FRAME_PROCESSORS_MODULES.remove(module)` when found (removes the first
matching module, keeps the list unchanged otherwise). -/
def removeFirstNamed (frame_processor : String) (ms : List PyModule) : List PyModule :=
  match ms.find? (fun m => m.name = frame_processor) with
  | none => ms
  | some m => ms.erase m

/-- The `for frame_processor, state in fp_ui.items()` loop of
`set_frame_processors_modules_from_ui`.  `current_names` is computed once
before the loop in the Python source, hence it is a fixed argument here.
In the enable branch, the `except (SystemExit, Exception)` handler catches
the `sys.exit()` of a failed `load_frame_processor_module`, prints a
warning and continues with the next toggle — the accumulator is returned
unchanged. -/
def applyToggles (imp : String → Option PyModule) (current_names : List String) :
    List (String × Bool) → RegistryState → RegistryState
  | [], acc => acc
  | (frame_processor, state) :: rest, acc =>
    let acc2 :=
      if state = true ∧ frame_processor ∉ current_names then
        match load_frame_processor_module imp frame_processor with
        | .ok m =>
          { acc with
            modules := acc.modules ++ [m]
            frame_processors :=
              if frame_processor ∈ acc.frame_processors then acc.frame_processors
              else acc.frame_processors ++ [frame_processor] }
        | .error _ => acc
      else if state = false ∧ frame_processor ∈ current_names then
        { acc with
          modules := removeFirstNamed frame_processor acc.modules
          frame_processors := acc.frame_processors.erase frame_processor }
      else acc
    applyToggles imp current_names rest acc2

/-- Model of `set_frame_processors_modules_from_ui` from
`modules/processors/registry.py` (its Python list parameter is unused by
the body, which reads `config.fp_ui` and mutates the globals bundled in
`RegistryState`).  Crucially, this function catches every `SystemExit`
raised while loading a toggled-on stage, so it always returns a state and
never exits. -/
def set_frame_processors_modules_from_ui (imp : String → Option PyModule)
    (st : RegistryState) : RegistryState :=
  applyToggles imp (st.modules.map PyModule.name) st.fp_ui st

/-- Model of `get_frame_processors_modules` from
`modules/processors/registry.py`: when the module list is still empty it is
populated from the configured names — a failed load exits the process
(`.error ()`) — and then the UI toggle state is applied. -/
def get_frame_processors_modules (imp : String → Option PyModule) (st : RegistryState) :
    Except Unit RegistryState :=
  match (if st.modules = [] then
          match loadAll imp st.frame_processors with
          | Except.error e => Except.error e
          | Except.ok ms => Except.ok { st with modules := ms }
         else Except.ok st) with
  | Except.error e => Except.error e
  | Except.ok st2 => Except.ok (set_frame_processors_modules_from_ui imp st2)

/-- An import environment with no importable frame-processor modules
(every `importlib.import_module` raises `ImportError`). -/
def noImports : String → Option PyModule := fun _ => none

/-- An import environment with exactly one capability-complete module,
`face_swapper`. -/
def oneImport : String → Option PyModule := fun s =>
  if s = "face_swapper" then some ⟨"face_swapper", true, true, true, true, true⟩ else none

/-- A detected face as `default_target_face` and `get_one_face` read it:
its detection confidence `det_score` and its bounding box
`(x_min, y_min, x_max, y_max)`.  The embedding and remaining insightface
fields play no role in the verified claims. -/
structure DetFace where
  det_score : ℚ
  bbox : ℚ × ℚ × ℚ × ℚ
deriving DecidableEq

/-- One element of a `target_faces_in_frame` list: the frame index, the
faces of that frame assigned to the entry's centroid, and the frame's file
location. -/
structure FrameEntry where
  frame : ℕ
  faces : List DetFace
  location : String
deriving DecidableEq

/-- One entry of `config.source_target_map` as `default_target_face` reads
and writes it, with the representative image abstracted over an image type
`Img`: `target` holds the cropped representative (`"cv2"`) and its face
(`"face"`). -/
structure MapEntry (Img : Type) where
  id : ℕ
  target_faces_in_frame : List FrameEntry
  target : Option (Img × DetFace)

/-- Python `int()` on a float/rational: truncation toward zero (used by
`map(int, face["bbox"])`). -/
def pyInt (q : ℚ) : ℤ := if 0 ≤ q then ⌊q⌋ else ⌈q⌉

/-- Python `max(iterable, key=...)` scanned from a first element `b`: the
current best is replaced only when a strictly greater key appears, so the
first element attaining the maximal key wins. -/
def pyMax {α : Type} (key : α → ℚ) (b : α) : List α → α
  | [] => b
  | y :: ys => if key b < key y then pyMax key y ys else pyMax key b ys

/-- Python `min(iterable, key=...)` scanned from a first element `b`: the
current best is replaced only when a strictly smaller key appears, so the
first element attaining the minimal key wins. -/
def pyMin {α : Type} (key : α → ℚ) (b : α) : List α → α
  | [] => b
  | y :: ys => if key y < key b then pyMin key y ys else pyMin key b ys

/-- The `frames_with_faces` comprehension of `default_target_face`:
`[(frame, face) for frame in m.get("target_faces_in_frame", []) for face in
frame["faces"]]`. -/
def framesWithFaces (m : List FrameEntry) : List (FrameEntry × DetFace) :=
  (m.map fun fr => fr.faces.map fun f => (fr, f)).flatten

/-- The loop body of `default_target_face` for one map entry: pick the
member `(frame, face)` pair of maximal `det_score`, read the frame image
(`cv2.imread`, external, modelled by `imread`; `None` on a failed read
leaves the entry untouched) and store the bounding-box crop
`target_frame[y_min:y_max, x_min:x_max]` (the crop is external numpy
slicing, modelled by `crop img y_min y_max x_min x_max`). -/
def pickRepresentative {Img : Type} (imread : String → Option Img)
    (crop : Img → ℤ → ℤ → ℤ → ℤ → Img) (m : MapEntry Img) : MapEntry Img :=
  match framesWithFaces m.target_faces_in_frame with
  | [] => m
  | p :: ps =>
    let best := pyMax (fun q => q.2.det_score) p ps
    let x_min := pyInt best.2.bbox.1
    let y_min := pyInt best.2.bbox.2.1
    let x_max := pyInt best.2.bbox.2.2.1
    let y_max := pyInt best.2.bbox.2.2.2
    match imread best.1.location with
    | none => m
    | some img => { m with target := some (crop img y_min y_max x_min x_max, best.2) }

/-- Model of `default_target_face` from `modules/face/analyser.py`: each
entry of `config.source_target_map` with at least one member face receives
the representative of maximal detection confidence. -/
def default_target_face {Img : Type} (imread : String → Option Img)
    (crop : Img → ℤ → ℤ → ℤ → ℤ → Img) (source_target_map : List (MapEntry Img)) :
    List (MapEntry Img) :=
  source_target_map.map (pickRepresentative imread crop)

/-- Model of `get_one_face` from `modules/face/analyser.py`, parameterised
by the face list the external insightface analyser reports for the frame:
`min(face, key=lambda x: x.bbox[0])`, where `min` of an empty sequence
raises `ValueError`, caught to return `None`. -/
def get_one_face (faces : List DetFace) : Option DetFace :=
  match faces with
  | [] => none
  | f :: fs => some (pyMin (fun x => x.bbox.1) f fs)

theorem getD_eq_getElem {α : Type} (l : List α) (j : ℕ) (hj : j < l.length) (d : α) :
    l.getD j d = l[j] := by
  rw [List.getD_eq_getElem?_getD, List.getElem?_eq_getElem hj]; rfl

theorem getD_mem {α : Type} (l : List α) (j : ℕ) (hj : j < l.length) (d : α) :
    l.getD j d ∈ l := by
  rw [getD_eq_getElem l j hj d]; exact List.getElem_mem hj

theorem getD_map_eq {α β : Type} (f : α → β) (l : List α) (j : ℕ) (hj : j < l.length)
    (d : α) (d2 : β) : (l.map f).getD j d2 = f (l.getD j d) := by
  rw [List.getD_eq_getElem?_getD, List.getElem?_map, List.getElem?_eq_getElem hj,
    getD_eq_getElem l j hj d]
  rfl

theorem getD_append_self {α : Type} (pre : List α) (y d : α) :
    (pre ++ [y]).getD pre.length d = y := by
  rw [List.getD_append_right pre [y] d pre.length (le_refl _), Nat.sub_self]; rfl

theorem argmaxGo_isFirstMax (ys : List ℚ) : ∀ (pre : List ℚ) (best : ℕ),
    IsFirstMax pre best →
    IsFirstMax (pre ++ ys) (argmaxGo best (pre.getD best 0) pre.length ys) := by
  induction ys with
  | nil => intro pre best h; simpa [argmaxGo] using h
  | cons y ys ih =>
    intro pre best h
    obtain ⟨hlt, hmax, hfirst⟩ := h
    rw [argmaxGo]
    by_cases hy : pre.getD best 0 < y
    · rw [if_pos hy]
      have h1 : IsFirstMax (pre ++ [y]) pre.length := by
        refine ⟨by simp, ?_, ?_⟩
        · intro j hj
          rw [getD_append_self]
          simp only [List.length_append, List.length_singleton] at hj
          rcases Nat.lt_succ_iff_lt_or_eq.mp hj with hj2 | hj2
          · rw [List.getD_append pre [y] 0 j hj2]
            exact le_of_lt (lt_of_le_of_lt (hmax j hj2) hy)
          · subst hj2; rw [getD_append_self]
        · intro j hj
          rw [List.getD_append pre [y] 0 j hj, getD_append_self]
          exact lt_of_le_of_lt (hmax j hj) hy
      have h2 := ih (pre ++ [y]) pre.length h1
      rw [getD_append_self] at h2
      rw [List.append_assoc, List.singleton_append] at h2
      simpa [List.length_append] using h2
    · rw [if_neg hy]
      push_neg at hy
      have h1 : IsFirstMax (pre ++ [y]) best := by
        refine ⟨lt_of_lt_of_le hlt (by simp), ?_, ?_⟩
        · intro j hj
          rw [List.getD_append pre [y] 0 best hlt]
          simp only [List.length_append, List.length_singleton] at hj
          rcases Nat.lt_succ_iff_lt_or_eq.mp hj with hj2 | hj2
          · rw [List.getD_append pre [y] 0 j hj2]; exact hmax j hj2
          · subst hj2; rw [getD_append_self]; exact hy
        · intro j hj
          rw [List.getD_append pre [y] 0 best hlt, List.getD_append pre [y] 0 j (lt_trans hj hlt)]
          exact hfirst j hj
      have h2 := ih (pre ++ [y]) best h1
      rw [List.getD_append pre [y] 0 best hlt] at h2
      rw [List.append_assoc, List.singleton_append] at h2
      simpa [List.length_append] using h2

theorem npArgmax_isFirstMax (l : List ℚ) (h : l ≠ []) : IsFirstMax l (npArgmax l) := by
  match l with
  | [] => exact absurd rfl h
  | x :: xs =>
    have h0 : IsFirstMax [x] 0 := by
      refine ⟨by simp, ?_, ?_⟩
      · intro j hj
        simp only [List.length_singleton] at hj
        interval_cases j
        exact le_refl _
      · intro j hj; omega
    have h2 := argmaxGo_isFirstMax xs [x] 0 h0
    simpa [npArgmax, List.length_singleton] using h2

theorem argminGo_isFirstMin (ys : List ℚ) : ∀ (pre : List ℚ) (best : ℕ),
    IsFirstMin pre best →
    IsFirstMin (pre ++ ys) (argminGo best (pre.getD best 0) pre.length ys) := by
  induction ys with
  | nil => intro pre best h; simpa [argminGo] using h
  | cons y ys ih =>
    intro pre best h
    obtain ⟨hlt, hmin, hfirst⟩ := h
    rw [argminGo]
    by_cases hy : y < pre.getD best 0
    · rw [if_pos hy]
      have h1 : IsFirstMin (pre ++ [y]) pre.length := by
        refine ⟨by simp, ?_, ?_⟩
        · intro j hj
          rw [getD_append_self]
          simp only [List.length_append, List.length_singleton] at hj
          rcases Nat.lt_succ_iff_lt_or_eq.mp hj with hj2 | hj2
          · rw [List.getD_append pre [y] 0 j hj2]
            exact le_of_lt (lt_of_lt_of_le hy (hmin j hj2))
          · subst hj2; rw [getD_append_self]
        · intro j hj
          rw [List.getD_append pre [y] 0 j hj, getD_append_self]
          exact lt_of_lt_of_le hy (hmin j hj)
      have h2 := ih (pre ++ [y]) pre.length h1
      rw [getD_append_self] at h2
      rw [List.append_assoc, List.singleton_append] at h2
      simpa [List.length_append] using h2
    · rw [if_neg hy]
      push_neg at hy
      have h1 : IsFirstMin (pre ++ [y]) best := by
        refine ⟨lt_of_lt_of_le hlt (by simp), ?_, ?_⟩
        · intro j hj
          rw [List.getD_append pre [y] 0 best hlt]
          simp only [List.length_append, List.length_singleton] at hj
          rcases Nat.lt_succ_iff_lt_or_eq.mp hj with hj2 | hj2
          · rw [List.getD_append pre [y] 0 j hj2]; exact hmin j hj2
          · subst hj2; rw [getD_append_self]; exact hy
        · intro j hj
          rw [List.getD_append pre [y] 0 best hlt, List.getD_append pre [y] 0 j (lt_trans hj hlt)]
          exact hfirst j hj
      have h2 := ih (pre ++ [y]) best h1
      rw [List.getD_append pre [y] 0 best hlt] at h2
      rw [List.append_assoc, List.singleton_append] at h2
      simpa [List.length_append] using h2

theorem npArgmin_isFirstMin (l : List ℚ) (h : l ≠ []) : IsFirstMin l (npArgmin l) := by
  match l with
  | [] => exact absurd rfl h
  | x :: xs =>
    have h0 : IsFirstMin [x] 0 := by
      refine ⟨by simp, ?_, ?_⟩
      · intro j hj
        simp only [List.length_singleton] at hj
        interval_cases j
        exact le_refl _
      · intro j hj; omega
    have h2 := argminGo_isFirstMin xs [x] 0 h0
    simpa [npArgmin, List.length_singleton] using h2

theorem pyMax_key_le {α : Type} (key : α → ℚ) :
    ∀ (ys : List α) (b : α), key b ≤ key (pyMax key b ys)
  | [], _ => le_refl _
  | y :: ys, b => by
    rw [pyMax]
    by_cases h : key b < key y
    · rw [if_pos h]; exact le_of_lt (lt_of_lt_of_le h (pyMax_key_le key ys y))
    · rw [if_neg h]; exact pyMax_key_le key ys b

theorem pyMax_mem {α : Type} (key : α → ℚ) :
    ∀ (ys : List α) (b : α), pyMax key b ys ∈ b :: ys
  | [], b => by simp [pyMax]
  | y :: ys, b => by
    rw [pyMax]
    by_cases h : key b < key y
    · rw [if_pos h]
      rcases List.mem_cons.mp (pyMax_mem key ys y) with h2 | h2
      · rw [h2]; exact List.mem_cons_of_mem _ (List.mem_cons_self _ _)
      · exact List.mem_cons_of_mem _ (List.mem_cons_of_mem _ h2)
    · rw [if_neg h]
      rcases List.mem_cons.mp (pyMax_mem key ys b) with h2 | h2
      · rw [h2]; exact List.mem_cons_self _ _
      · exact List.mem_cons_of_mem _ (List.mem_cons_of_mem _ h2)

theorem pyMax_le {α : Type} (key : α → ℚ) :
    ∀ (ys : List α) (b a : α), a ∈ b :: ys → key a ≤ key (pyMax key b ys)
  | [], b, a, ha => by
    simp only [List.mem_singleton] at ha
    subst ha
    simp [pyMax]
  | y :: ys, b, a, ha => by
    rw [pyMax]
    by_cases h : key b < key y
    · rw [if_pos h]
      rcases List.mem_cons.mp ha with rfl | h2
      · exact le_of_lt (lt_of_lt_of_le h (pyMax_key_le key ys y))
      · exact pyMax_le key ys y a h2
    · rw [if_neg h]
      push_neg at h
      rcases List.mem_cons.mp ha with rfl | h2
      · exact pyMax_key_le key ys a
      · rcases List.mem_cons.mp h2 with rfl | h3
        · exact le_trans h (pyMax_key_le key ys b)
        · exact pyMax_le key ys b a (List.mem_cons_of_mem _ h3)

theorem pyMin_key_le {α : Type} (key : α → ℚ) :
    ∀ (ys : List α) (b : α), key (pyMin key b ys) ≤ key b
  | [], _ => le_refl _
  | y :: ys, b => by
    rw [pyMin]
    by_cases h : key y < key b
    · rw [if_pos h]; exact le_of_lt (lt_of_le_of_lt (pyMin_key_le key ys y) h)
    · rw [if_neg h]; exact pyMin_key_le key ys b

theorem pyMin_mem {α : Type} (key : α → ℚ) :
    ∀ (ys : List α) (b : α), pyMin key b ys ∈ b :: ys
  | [], b => by simp [pyMin]
  | y :: ys, b => by
    rw [pyMin]
    by_cases h : key y < key b
    · rw [if_pos h]
      rcases List.mem_cons.mp (pyMin_mem key ys y) with h2 | h2
      · rw [h2]; exact List.mem_cons_of_mem _ (List.mem_cons_self _ _)
      · exact List.mem_cons_of_mem _ (List.mem_cons_of_mem _ h2)
    · rw [if_neg h]
      rcases List.mem_cons.mp (pyMin_mem key ys b) with h2 | h2
      · rw [h2]; exact List.mem_cons_self _ _
      · exact List.mem_cons_of_mem _ (List.mem_cons_of_mem _ h2)

theorem pyMin_le {α : Type} (key : α → ℚ) :
    ∀ (ys : List α) (b a : α), a ∈ b :: ys → key (pyMin key b ys) ≤ key a
  | [], b, a, ha => by
    simp only [List.mem_singleton] at ha
    subst ha
    simp [pyMin]
  | y :: ys, b, a, ha => by
    rw [pyMin]
    by_cases h : key y < key b
    · rw [if_pos h]
      rcases List.mem_cons.mp ha with rfl | h2
      · exact le_of_lt (lt_of_le_of_lt (pyMin_key_le key ys y) h)
      · exact pyMin_le key ys y a h2
    · rw [if_neg h]
      push_neg at h
      rcases List.mem_cons.mp ha with rfl | h2
      · exact pyMin_key_le key ys a
      · rcases List.mem_cons.mp h2 with rfl | h3
        · exact le_trans (pyMin_key_le key ys b) h
        · exact pyMin_le key ys b a (List.mem_cons_of_mem _ h3)

theorem npDiff_length : ∀ l : List ℚ, (npDiff l).length = l.length - 1
  | [] => rfl
  | [_] => rfl
  | x :: y :: rest => by
    rw [npDiff]
    simp only [List.length_cons, npDiff_length (y :: rest), List.length_cons]
    omega

theorem npDiff_getD : ∀ (l : List ℚ) (j : ℕ), j + 1 < l.length →
    (npDiff l).getD j 0 = l.getD (j + 1) 0 - l.getD j 0
  | [], j, h => by simp at h
  | [_], j, h => by simp at h
  | x :: y :: rest, 0, _ => by rw [npDiff]; rfl
  | x :: y :: rest, j + 1, h => by
    rw [npDiff, List.getD_cons_succ, List.getD_cons_succ, List.getD_cons_succ]
    exact npDiff_getD (y :: rest) j (by simpa using Nat.lt_of_succ_lt_succ h)

theorem clusterScan_no_early (fit : FitFn) (arr : List Vec) :
    ∀ ks : List ℕ, (∀ k ∈ ks, ¬ (fit k arr).inertia < 1 / 1000000) →
    clusterScan fit arr ks =
      (ks.map fun k => (fit k arr).inertia,
       ks.map (fun k => (fit k arr).cluster_centers), none)
  | [], _ => rfl
  | k :: ks, h => by
    have hrest := clusterScan_no_early fit arr ks (fun k2 hk2 => h k2 (List.mem_cons_of_mem _ hk2))
    simp only [clusterScan, hrest, if_neg (h k (List.mem_cons_self _ _)), List.map_cons]

theorem clusterScan_shape (fit : FitFn) (arr : List Vec) (ks : List ℕ) :
    (∀ c ∈ (clusterScan fit arr ks).2.1, ∃ k ∈ ks, c = (fit k arr).cluster_centers) ∧
    (clusterScan fit arr ks).1.length = (clusterScan fit arr ks).2.1.length ∧
    ((clusterScan fit arr ks).2.2 = none → (clusterScan fit arr ks).1.length = ks.length) ∧
    (∀ c, (clusterScan fit arr ks).2.2 = some c → ∃ k ∈ ks, c = (fit k arr).cluster_centers) := by
  induction ks with
  | nil =>
    refine ⟨by simp [clusterScan], rfl, fun _ => rfl, by simp [clusterScan]⟩
  | cons k ks ih =>
    obtain ⟨ih1, ih2, ih3, ih4⟩ := ih
    by_cases h : (fit k arr).inertia < 1 / 1000000
    · have heq : clusterScan fit arr (k :: ks) =
          ([(fit k arr).inertia], [(fit k arr).cluster_centers], some (fit k arr).cluster_centers) := by
        simp only [clusterScan]
        rw [if_pos h]
      rw [heq]
      refine ⟨?_, rfl, by simp, ?_⟩
      · intro c hc
        simp only [List.mem_singleton] at hc
        exact ⟨k, List.mem_cons_self _ _, hc⟩
      · intro c hc
        simp only [Option.some.injEq] at hc
        exact ⟨k, List.mem_cons_self _ _, hc.symm⟩
    · have heq : clusterScan fit arr (k :: ks) =
          ((fit k arr).inertia :: (clusterScan fit arr ks).1,
           (fit k arr).cluster_centers :: (clusterScan fit arr ks).2.1,
           (clusterScan fit arr ks).2.2) := by
        simp only [clusterScan]
        rw [if_neg h]
      rw [heq]
      refine ⟨?_, by simpa using ih2, ?_, ?_⟩
      · intro c hc
        rcases List.mem_cons.mp hc with rfl | hc2
        · exact ⟨k, List.mem_cons_self _ _, rfl⟩
        · obtain ⟨k2, hk2, hc3⟩ := ih1 c hc2
          exact ⟨k2, List.mem_cons_of_mem _ hk2, hc3⟩
      · intro h2
        simp only [List.length_cons, ih3 h2]
      · intro c hc
        obtain ⟨k2, hk2, hc3⟩ := ih4 c hc
        exact ⟨k2, List.mem_cons_of_mem _ hk2, hc3⟩

theorem find_cluster_centroids_main (fit : FitFn) (e : List Vec) (max_k : ℤ)
    (h3 : 3 ≤ e.length) (hK : 2 ≤ min max_k (e.length : ℤ)) :
    find_cluster_centroids fit e max_k =
      match clusterScan fit e ((List.range (min max_k (e.length : ℤ)).toNat).map (· + 1)) with
      | (_, _, some early) => early
      | (inertias, all_centroids, none) =>
        if inertias.length < 2 then all_centroids.getD 0 []
        else all_centroids.getD (npArgmin (npDiff inertias) + 1) [] := by
  simp only [find_cluster_centroids]
  rw [if_neg (by omega : ¬ e.length = 0), if_neg (by omega : ¬ e.length = 1),
    if_neg (by omega : ¬ e.length ≤ 2), if_neg (by omega : ¬ min max_k (e.length : ℤ) < 2)]

theorem getD_range (K j : ℕ) (hj : j < K) (d : ℕ) : (List.range K).getD j d = j := by
  rw [List.getD_eq_getElem?_getD, List.getElem?_range hj]; rfl

theorem getD_map_range {β : Type} (f : ℕ → β) (K j : ℕ) (hj : j < K) (d : β) :
    ((List.range K).map f).getD j d = f j := by
  rw [getD_map_eq f (List.range K) j (by simpa using hj) 0 d, getD_range K j hj 0]

theorem find_cluster_centroids_small (fit : FitFn) (e : List Vec) (max_k : ℤ)
    (h : e.length ≤ 2) : find_cluster_centroids fit e max_k = e := by
  simp only [find_cluster_centroids]
  by_cases h0 : e.length = 0
  · rw [if_pos h0]; exact (List.length_eq_zero.mp h0).symm
  · rw [if_neg h0]
    by_cases h1 : e.length = 1
    · rw [if_pos h1]
    · rw [if_neg h1, if_pos h]

/-- C7: for every embedding list of size `n ≤ 2` (including `n = 0`),
`find_cluster_centroids` returns the input embeddings themselves as the
centroid set — the empty set for `n = 0`, the input unchanged otherwise. -/
theorem small_input_identity (fit : FitFn) (e : List Vec) (max_k : ℤ) (h : e.length ≤ 2) :
    find_cluster_centroids fit e max_k = e :=
  find_cluster_centroids_small fit e max_k h

/-- Witness for C7: two unit embeddings are returned unchanged (and the
empty list yields the empty centroid set). -/
theorem small_input_identity_witness :
    find_cluster_centroids constFit [[1, 0], [0, 1]] 10 = [[1, 0], [0, 1]] ∧
    find_cluster_centroids constFit ([] : List Vec) 10 = [] :=
  ⟨small_input_identity constFit [[1, 0], [0, 1]] 10 (by norm_num),
   small_input_identity constFit [] 10 (by norm_num)⟩

/-- C1 (amended): for every embedding list of size `n ≥ 1` and every
`max_k ≥ 2`, assuming the KMeans contract that a fit with `n_clusters = k`
returns `k` centers, the returned centroid set has size `k` with
`1 ≤ k ≤ min (max_k, n)`.  (The original claim, quantified over every `n`
and every `max_k`, fails at `n = 0` and at `max_k < 2`; see the
counterexample below.) -/
theorem centroid_count_bounds (fit : FitFn) (e : List Vec) (max_k : ℤ)
    (hfit : ∀ k : ℕ, 1 ≤ k → k ≤ e.length → ((fit k e).cluster_centers).length = k)
    (hn : 1 ≤ e.length) (hk : 2 ≤ max_k) :
    1 ≤ (find_cluster_centroids fit e max_k).length ∧
    ((find_cluster_centroids fit e max_k).length : ℤ) ≤ min max_k (e.length : ℤ) := by
  by_cases hsmall : e.length ≤ 2
  · rw [find_cluster_centroids_small fit e max_k hsmall]
    have hcast : (e.length : ℤ) ≤ 2 := by exact_mod_cast hsmall
    have hmin : min max_k (e.length : ℤ) = (e.length : ℤ) := min_eq_right (by omega)
    exact ⟨hn, by rw [hmin]⟩
  · have h3 : 3 ≤ e.length := by omega
    have hcast3 : (3 : ℤ) ≤ (e.length : ℤ) := by exact_mod_cast h3
    have hK : 2 ≤ min max_k (e.length : ℤ) := le_min hk (by omega)
    have hminle : min max_k (e.length : ℤ) ≤ (e.length : ℤ) := min_le_right _ _
    have hKnat : ((min max_k (e.length : ℤ)).toNat : ℤ) = min max_k (e.length : ℤ) := by omega
    have hks : ∀ k : ℕ, k ∈ (List.range (min max_k (e.length : ℤ)).toNat).map (· + 1) →
        1 ≤ k ∧ (k : ℤ) ≤ min max_k (e.length : ℤ) := by
      intro k hkmem
      simp only [List.mem_map, List.mem_range] at hkmem
      obtain ⟨j, hj, rfl⟩ := hkmem
      omega
    rw [find_cluster_centroids_main fit e max_k h3 hK]
    obtain ⟨sh1, sh2, sh3, sh4⟩ := clusterScan_shape fit e
      ((List.range (min max_k (e.length : ℤ)).toNat).map (· + 1))
    rcases hscan : clusterScan fit e
        ((List.range (min max_k (e.length : ℤ)).toNat).map (· + 1)) with ⟨is, cents, early⟩
    rw [hscan] at sh1 sh2 sh3 sh4
    cases early with
    | some c =>
      obtain ⟨k, hkmem, hceq⟩ := sh4 c rfl
      obtain ⟨hk1, hk2⟩ := hks k hkmem
      have hlen : c.length = k := by
        rw [hceq]; exact hfit k hk1 (by omega)
      show 1 ≤ c.length ∧ ((c.length : ℤ) ≤ min max_k (e.length : ℤ))
      exact ⟨by omega, by rw [hlen]; omega⟩
    | none =>
      have hislen : is.length = (min max_k (e.length : ℤ)).toNat := by
        rw [sh3 rfl]; simp
      have h2K : 2 ≤ (min max_k (e.length : ℤ)).toNat := by omega
      show 1 ≤ (if is.length < 2 then cents.getD 0 []
          else cents.getD (npArgmin (npDiff is) + 1) []).length ∧
        (((if is.length < 2 then cents.getD 0 []
          else cents.getD (npArgmin (npDiff is) + 1) []).length : ℤ) ≤ min max_k (e.length : ℤ))
      rw [if_neg (by omega : ¬ is.length < 2)]
      have hidx : npArgmin (npDiff is) < (npDiff is).length :=
        (npArgmin_isFirstMin (npDiff is)
          (by rw [← List.length_pos, npDiff_length]; omega)).1
      have hcents : cents.length = is.length := sh2.symm
      have hidx2 : npArgmin (npDiff is) + 1 < cents.length := by
        rw [npDiff_length] at hidx
        omega
    -- the selected element is one of the recorded centroid sets
      obtain ⟨k, hkmem, hceq⟩ := sh1 (cents.getD (npArgmin (npDiff is) + 1) [])
        (getD_mem cents _ hidx2 [])
      obtain ⟨hk1, hk2⟩ := hks k hkmem
      have hlen : (cents.getD (npArgmin (npDiff is) + 1) []).length = k := by
        rw [hceq]; exact hfit k hk1 (by omega)
      exact ⟨by omega, by rw [hlen]; omega⟩

/-- Counterexample for C1 as stated: at `n = 0` the engine returns zero
centroids although the claim asserts `1 ≤ k`; and at `n = 3`, `max_k = 1`
the early `max_k < 2` return yields all three embeddings as centroids,
exceeding `min (max_k, n) = 1`. -/
theorem centroid_count_claim_cex :
    (find_cluster_centroids constFit ([] : List Vec) 10).length = 0 ∧
    (find_cluster_centroids constFit [[1], [2], [3]] 1).length = 3 ∧
    ¬ (1 ≤ (find_cluster_centroids constFit ([] : List Vec) 10).length) ∧
    ¬ (((find_cluster_centroids constFit [[1], [2], [3]] 1).length : ℤ) ≤
        min 1 (([[1], [2], [3]] : List Vec).length : ℤ)) := by
  have h1 : (find_cluster_centroids constFit ([] : List Vec) 10).length = 0 := rfl
  have h2 : (find_cluster_centroids constFit [[1], [2], [3]] 1).length = 3 := by
    norm_num [find_cluster_centroids]
  refine ⟨h1, h2, by omega, ?_⟩
  rw [h2]
  norm_num

/-- Witness for C1 (amended): three embeddings with `max_k = 2` yield
between `1` and `min (2, 3) = 2` centroids. -/
theorem centroid_count_bounds_witness :
    1 ≤ (find_cluster_centroids constFit [[1], [2], [3]] 2).length ∧
    ((find_cluster_centroids constFit [[1], [2], [3]] 2).length : ℤ) ≤
      min 2 (([[1], [2], [3]] : List Vec).length : ℤ) :=
  centroid_count_bounds constFit [[1], [2], [3]] 2
    (by intro k _ _; simp [constFit]) (by norm_num) (by norm_num)

/-- C5: for `n ≥ 3` and an effective `min (max_k, n) ≥ 2`, when the `1e-6`
early exit never fires, `find_cluster_centroids` forms the successive
inertia differences over the evaluated `k = 1 .. min (max_k, n)` and
returns the centroid set recorded at `argmin(diffs) + 1` — the centroid
set of the `k` just after the largest inertia drop, the first such index
on ties. -/
theorem elbow_selection_spec (fit : FitFn) (e : List Vec) (max_k : ℤ)
    (h3 : 3 ≤ e.length) (hK : 2 ≤ min max_k (e.length : ℤ))
    (hno : ∀ k : ℕ, 1 ≤ k → (k : ℤ) ≤ min max_k (e.length : ℤ) →
      ¬ (fit k e).inertia < 1 / 1000000) :
    ∃ i : ℕ, (i : ℤ) + 2 ≤ min max_k (e.length : ℤ) ∧
      find_cluster_centroids fit e max_k = (fit (i + 2) e).cluster_centers ∧
      (∀ j : ℕ, (j : ℤ) + 2 ≤ min max_k (e.length : ℤ) →
        (fit (i + 2) e).inertia - (fit (i + 1) e).inertia ≤
          (fit (j + 2) e).inertia - (fit (j + 1) e).inertia) ∧
      ∀ j < i, (fit (i + 2) e).inertia - (fit (i + 1) e).inertia <
        (fit (j + 2) e).inertia - (fit (j + 1) e).inertia := by
  have hKnat : ((min max_k (e.length : ℤ)).toNat : ℤ) = min max_k (e.length : ℤ) := by omega
  have h2K : 2 ≤ (min max_k (e.length : ℤ)).toNat := by omega
  have hscan := clusterScan_no_early fit e
    ((List.range (min max_k (e.length : ℤ)).toNat).map (· + 1))
    (by
      intro k hkmem
      simp only [List.mem_map, List.mem_range] at hkmem
      obtain ⟨j, hj, rfl⟩ := hkmem
      exact hno (j + 1) (by omega) (by omega))
  rw [find_cluster_centroids_main fit e max_k h3 hK, hscan]
  have hislen :
      (((List.range (min max_k (e.length : ℤ)).toNat).map (· + 1)).map
        fun k => (fit k e).inertia).length = (min max_k (e.length : ℤ)).toNat := by
    simp
  show ∃ i : ℕ, _ ∧
    (if (((List.range (min max_k (e.length : ℤ)).toNat).map (· + 1)).map
          fun k => (fit k e).inertia).length < 2 then
      (((List.range (min max_k (e.length : ℤ)).toNat).map (· + 1)).map
          fun k => (fit k e).cluster_centers).getD 0 []
     else
      (((List.range (min max_k (e.length : ℤ)).toNat).map (· + 1)).map
          fun k => (fit k e).cluster_centers).getD
        (npArgmin (npDiff (((List.range (min max_k (e.length : ℤ)).toNat).map (· + 1)).map
          fun k => (fit k e).inertia)) + 1) []) = _ ∧ _ ∧ _
  rw [if_neg (by omega : ¬ (((List.range (min max_k (e.length : ℤ)).toNat).map (· + 1)).map
      fun k => (fit k e).inertia).length < 2)]
  have hvals : ∀ j : ℕ, j < (min max_k (e.length : ℤ)).toNat →
      ((((List.range (min max_k (e.length : ℤ)).toNat).map (· + 1)).map
        fun k => (fit k e).inertia).getD j 0) = (fit (j + 1) e).inertia := by
    intro j hj
    rw [List.map_map]
    exact getD_map_range _ _ j hj 0
  have hdiffs_len :
      (npDiff (((List.range (min max_k (e.length : ℤ)).toNat).map (· + 1)).map
        fun k => (fit k e).inertia)).length = (min max_k (e.length : ℤ)).toNat - 1 := by
    rw [npDiff_length, hislen]
  have hdvals : ∀ j : ℕ, j < (min max_k (e.length : ℤ)).toNat - 1 →
      ((npDiff (((List.range (min max_k (e.length : ℤ)).toNat).map (· + 1)).map
        fun k => (fit k e).inertia)).getD j 0)
        = (fit (j + 2) e).inertia - (fit (j + 1) e).inertia := by
    intro j hj
    rw [npDiff_getD _ j (by rw [hislen]; omega), hvals j (by omega), hvals (j + 1) (by omega)]
  obtain ⟨hidx_lt, hmin, hfirst⟩ := npArgmin_isFirstMin
    (npDiff (((List.range (min max_k (e.length : ℤ)).toNat).map (· + 1)).map
      fun k => (fit k e).inertia))
    (by rw [← List.length_pos, hdiffs_len]; omega)
  rw [hdiffs_len] at hidx_lt
  refine ⟨npArgmin (npDiff (((List.range (min max_k (e.length : ℤ)).toNat).map (· + 1)).map
      fun k => (fit k e).inertia)), by omega, ?_, ?_, ?_⟩
  · rw [List.map_map]
    exact getD_map_range _ _ _ (by omega) []
  · intro j hj
    have hj2 : j < (min max_k (e.length : ℤ)).toNat - 1 := by omega
    have := hmin j (by rw [hdiffs_len]; omega)
    rwa [hdvals _ hidx_lt, hdvals j hj2] at this
  · intro j hj
    have := hfirst j hj
    rwa [hdvals _ hidx_lt, hdvals j (by omega)] at this

/-- Witness for C5: three embeddings, `max_k = 3`, constant inertia `1`
at every fit (so no early exit fires). -/
theorem elbow_selection_witness :
    ∃ i : ℕ, (i : ℤ) + 2 ≤ min 3 (([[1], [2], [3]] : List Vec).length : ℤ) ∧
      find_cluster_centroids constFit [[1], [2], [3]] 3 =
        (constFit (i + 2) [[1], [2], [3]]).cluster_centers ∧
      (∀ j : ℕ, (j : ℤ) + 2 ≤ min 3 (([[1], [2], [3]] : List Vec).length : ℤ) →
        (constFit (i + 2) [[1], [2], [3]]).inertia -
            (constFit (i + 1) [[1], [2], [3]]).inertia ≤
          (constFit (j + 2) [[1], [2], [3]]).inertia -
            (constFit (j + 1) [[1], [2], [3]]).inertia) ∧
      ∀ j < i, (constFit (i + 2) [[1], [2], [3]]).inertia -
          (constFit (i + 1) [[1], [2], [3]]).inertia <
        (constFit (j + 2) [[1], [2], [3]]).inertia -
          (constFit (j + 1) [[1], [2], [3]]).inertia :=
  elbow_selection_spec constFit [[1], [2], [3]] 3 (by norm_num) (by norm_num)
    (by intro k _ _; simp only [constFit]; norm_num)

theorem find_closest_centroid_char (cs : List Vec) (emb : Vec) (h : cs ≠ []) :
    ∃ i : ℕ, find_closest_centroid (some cs) emb = some (i, cs.getD i []) ∧
      i < cs.length ∧
      (∀ j < cs.length, dot (cs.getD j []) emb ≤ dot (cs.getD i []) emb) ∧
      ∀ j < i, dot (cs.getD j []) emb < dot (cs.getD i []) emb := by
  have hlen : ¬ cs.length = 0 := fun h0 => h (List.length_eq_zero.mp h0)
  obtain ⟨h1, h2, h3⟩ := npArgmax_isFirstMax (cs.map fun c => dot c emb)
    (by simpa using h)
  rw [List.length_map] at h1
  have hval : ∀ j : ℕ, j < cs.length →
      (cs.map fun c => dot c emb).getD j 0 = dot (cs.getD j []) emb := by
    intro j hj
    exact getD_map_eq _ cs j hj [] 0
  refine ⟨npArgmax (cs.map fun c => dot c emb), ?_, h1, ?_, ?_⟩
  · simp only [find_closest_centroid]
    rw [if_neg hlen]
  · intro j hj
    have := h2 j (by simpa using hj)
    rwa [hval j hj, hval _ h1] at this
  · intro j hj
    have := h3 j hj
    rwa [hval j (lt_trans hj h1), hval _ h1] at this

/-- C6: for a non-empty centroid list, `find_closest_centroid` returns the
pair of the smallest index maximizing the dot product with the embedding
(first centroid achieving the maximum on ties) together with that
centroid; for an absent (`None`) or empty centroid list it returns
`None`. -/
theorem closest_centroid_spec (emb : Vec) :
    find_closest_centroid none emb = none ∧
    find_closest_centroid (some []) emb = none ∧
    ∀ cs : List Vec, cs ≠ [] →
      ∃ i : ℕ, find_closest_centroid (some cs) emb = some (i, cs.getD i []) ∧
        i < cs.length ∧
        (∀ j < cs.length, dot (cs.getD j []) emb ≤ dot (cs.getD i []) emb) ∧
        ∀ j < i, dot (cs.getD j []) emb < dot (cs.getD i []) emb :=
  ⟨rfl, rfl, fun cs h => find_closest_centroid_char cs emb h⟩

/-- Witness for C6: a concrete two-centroid lookup. -/
theorem closest_centroid_witness :
    ∃ i : ℕ, find_closest_centroid (some [[0, 1], [1, 0]]) [1, 0] =
        some (i, ([[0, 1], [1, 0]] : List Vec).getD i []) ∧
      i < ([[0, 1], [1, 0]] : List Vec).length ∧
      (∀ j < ([[0, 1], [1, 0]] : List Vec).length,
        dot (([[0, 1], [1, 0]] : List Vec).getD j []) [1, 0] ≤
          dot (([[0, 1], [1, 0]] : List Vec).getD i []) [1, 0]) ∧
      ∀ j < i, dot (([[0, 1], [1, 0]] : List Vec).getD j []) [1, 0] <
        dot (([[0, 1], [1, 0]] : List Vec).getD i []) [1, 0] :=
  (closest_centroid_spec [1, 0]).2.2 [[0, 1], [1, 0]] (by simp)

/-- Counterexample for C9 as stated: the centroid list
`[[2, 0], [1, 0]]` contains the unit vector `V = [1, 0]` at index `1`,
yet the query with `V` returns index `0` (the non-normalized centroid
`[2, 0]` has the larger dot product `2 > 1`), not the index of `V`. -/
theorem self_match_claim_cex :
    dot [1, 0] [1, 0] = 1 ∧
    ([[2, 0], [1, 0]] : List Vec).getD 1 [] = [1, 0] ∧
    find_closest_centroid (some [[2, 0], [1, 0]]) [1, 0] = some (0, [2, 0]) ∧
    (0 : ℕ) ≠ 1 := by
  refine ⟨by norm_num [dot], rfl, ?_, by norm_num⟩
  norm_num [find_closest_centroid, dot, npArgmax, argmaxGo]

/-- C9 (amended): if the centroid list holds the unit vector `V`
(`dot V V = 1`) at index `i`, every centroid scores a dot product with `V`
of at most `1`, and every centroid before index `i` scores strictly less
than `1`, then the query with `V` returns `(i, V)` and the similarity
computed at `i` is exactly `1`.  (As originally stated — for every
centroid set containing `V` — the claim fails: a non-normalized centroid
may out-score the exact match; see the counterexample.) -/
theorem self_match_similarity (cs : List Vec) (V : Vec) (i : ℕ)
    (hi : i < cs.length) (hV : cs.getD i [] = V) (hunit : dot V V = 1)
    (hle : ∀ c ∈ cs, dot c V ≤ 1) (hlt : ∀ j < i, dot (cs.getD j []) V < 1) :
    find_closest_centroid (some cs) V = some (i, V) ∧ dot (cs.getD i []) V = 1 := by
  have hne : cs ≠ [] := by
    intro h
    rw [h] at hi
    simp at hi
  obtain ⟨r, hr_eq, hr_lt, hr_max, hr_first⟩ := find_closest_centroid_char cs V hne
  have hvi : dot (cs.getD i []) V = 1 := by rw [hV]; exact hunit
  have hri : r = i := by
    rcases lt_trichotomy r i with h | h | h
    · exfalso
      have ha := hlt r h
      have hb := hr_max i hi
      rw [hvi] at hb
      exact absurd (lt_of_le_of_lt hb ha) (lt_irrefl 1)
    · exact h
    · exfalso
      have ha := hr_first i h
      rw [hvi] at ha
      have hb := hle (cs.getD r []) (getD_mem cs r hr_lt [])
      exact absurd (lt_of_lt_of_le ha hb) (lt_irrefl 1)
  rw [hri, hV] at hr_eq
  exact ⟨hr_eq, hvi⟩

/-- Witness for C9 (amended): unit-norm centroids `[[0, 1], [1, 0]]`
queried with `[1, 0]` return index `1` with similarity exactly `1`. -/
theorem self_match_witness :
    find_closest_centroid (some [[0, 1], [1, 0]]) [1, 0] = some (1, [1, 0]) ∧
    dot (([[0, 1], [1, 0]] : List Vec).getD 1 []) [1, 0] = 1 :=
  self_match_similarity [[0, 1], [1, 0]] [1, 0] 1 (by norm_num) rfl (by norm_num [dot])
    (by
      intro c hc
      rcases List.mem_cons.mp hc with rfl | hc2
      · norm_num [dot]
      · rcases List.mem_cons.mp hc2 with rfl | hc3
        · norm_num [dot]
        · simp at hc3)
    (by
      intro j hj
      interval_cases j
      norm_num [dot])

theorem mkBatches_length (l : List String) :
    (mkBatches l).length = (l.length + BATCH_SIZE - 1) / BATCH_SIZE := by
  simp [mkBatches]

theorem mkBatches_cons (l : List String) (h : l ≠ []) :
    mkBatches l = l.take BATCH_SIZE :: mkBatches (l.drop BATCH_SIZE) := by
  have hpos : 1 ≤ l.length := List.length_pos.mpr h
  have hnum : (l.length + BATCH_SIZE - 1) / BATCH_SIZE
      = ((l.drop BATCH_SIZE).length + BATCH_SIZE - 1) / BATCH_SIZE + 1 := by
    simp only [List.length_drop, BATCH_SIZE]
    omega
  simp only [mkBatches]
  rw [hnum, List.range_succ_eq_map, List.map_cons, List.map_map]
  congr 1
  simp only [List.length_drop]
  apply List.map_congr_left
  intro j _
  simp only [Function.comp_apply, Nat.succ_eq_add_one, List.drop_drop]
  have hidx : (j + 1) * BATCH_SIZE = BATCH_SIZE + j * BATCH_SIZE := by
    simp only [BATCH_SIZE]
    omega
  rw [hidx]

theorem mkBatches_flatten : ∀ l : List String, (mkBatches l).flatten = l
  | [] => rfl
  | x :: xs => by
    rw [mkBatches_cons (x :: xs) (by simp), List.flatten_cons,
      mkBatches_flatten ((x :: xs).drop BATCH_SIZE)]
    exact List.take_append_drop BATCH_SIZE (x :: xs)
termination_by l => l.length
decreasing_by
  simp only [List.length_drop, List.length_cons, BATCH_SIZE]
  omega

theorem mkBatches_sizes : ∀ l : List String, ∀ b ∈ mkBatches l, 1 ≤ b.length ∧ b.length ≤ BATCH_SIZE
  | [] => by simp [mkBatches, BATCH_SIZE]
  | x :: xs => by
    intro b hb
    rw [mkBatches_cons _ (by simp)] at hb
    rcases List.mem_cons.mp hb with rfl | hb2
    · simp only [List.length_take, List.length_cons, BATCH_SIZE]
      omega
    · exact mkBatches_sizes ((x :: xs).drop BATCH_SIZE) b hb2
termination_by l => l.length
decreasing_by
  simp only [List.length_drop, List.length_cons, BATCH_SIZE]
  omega

theorem mkBatches_dropLast : ∀ l : List String, ∀ b ∈ (mkBatches l).dropLast, b.length = BATCH_SIZE
  | [] => by simp [mkBatches, BATCH_SIZE]
  | x :: xs => by
    intro b hb
    rw [mkBatches_cons _ (by simp)] at hb
    by_cases hxs : (x :: xs).drop BATCH_SIZE = []
    · rw [hxs] at hb
      simp [mkBatches, BATCH_SIZE] at hb
    · have hne : mkBatches ((x :: xs).drop BATCH_SIZE) ≠ [] := by
        intro h0
        apply hxs
        have hlen0 := congrArg List.length h0
        rw [mkBatches_length] at hlen0
        simp only [List.length_nil, BATCH_SIZE] at hlen0
        have hz : ((x :: xs).drop BATCH_SIZE).length = 0 := by
          simp only [BATCH_SIZE]
          omega
        exact List.length_eq_zero.mp hz
      rw [List.dropLast_cons_of_ne_nil hne] at hb
      rcases List.mem_cons.mp hb with rfl | hb2
      · have hlong : BATCH_SIZE < (x :: xs).length := by
          by_contra hc
          exact hxs (List.drop_eq_nil_of_le (by omega))
        simp only [List.length_take]
        omega
      · exact mkBatches_dropLast ((x :: xs).drop BATCH_SIZE) b hb2
termination_by l => l.length
decreasing_by
  simp only [List.length_drop, List.length_cons, BATCH_SIZE]
  omega

theorem mkBatches_getD (l : List String) (j : ℕ) (hj : j < (mkBatches l).length) :
    (mkBatches l).getD j [] = (l.drop (j * BATCH_SIZE)).take BATCH_SIZE := by
  rw [mkBatches_length] at hj
  exact getD_map_range _ _ j hj []

theorem multi_process_frame_fst {ε : Type} (f : String → List String → Except ε Unit)
    (sp : String) (l : List String) :
    (multi_process_frame f sp l).map Prod.fst = mkBatches l := by
  rw [multi_process_frame, List.map_map]
  exact List.map_id _

/-- C3: `multi_process_frame` partitions its `N` work items into
`ceil(N / 8)` batches of fixed size `BATCH_SIZE = 8`, each batch equal to
the contiguous input slice starting at `j * 8`, every batch full except
possibly the last (which is non-empty and holds the remainder), their
concatenation equal to the input (so nothing is duplicated or dropped);
for `N = 20` this gives exactly the batch sizes `8, 8, 4`. -/
theorem batch_partition_spec {ε : Type} (f : String → List String → Except ε Unit)
    (sp : String) (l : List String) :
    (multi_process_frame f sp l).map Prod.fst = mkBatches l ∧
    (mkBatches l).length = (l.length + BATCH_SIZE - 1) / BATCH_SIZE ∧
    (∀ j < (mkBatches l).length,
      (mkBatches l).getD j [] = (l.drop (j * BATCH_SIZE)).take BATCH_SIZE) ∧
    (mkBatches l).flatten = l ∧
    (∀ b ∈ (mkBatches l).dropLast, b.length = BATCH_SIZE) ∧
    (∀ b ∈ mkBatches l, 1 ≤ b.length ∧ b.length ≤ BATCH_SIZE) ∧
    (mkBatches (List.replicate 20 "frame")).map List.length = [8, 8, 4] :=
  ⟨multi_process_frame_fst f sp l, mkBatches_length l,
   fun j hj => mkBatches_getD l j hj, mkBatches_flatten l,
   mkBatches_dropLast l, mkBatches_sizes l, by rfl⟩

/-- Witness for C3: the nine-frame input is split as `8 + 1`, with the
batch list recoverable from the scheduler result. -/
theorem batch_partition_witness :
    (multi_process_frame (fun _ _ => (.ok () : Except String Unit)) "src"
      (List.replicate 9 "frame")).map Prod.fst = mkBatches (List.replicate 9 "frame") ∧
    (mkBatches (List.replicate 9 "frame")).getD 1 [] =
      ((List.replicate 9 "frame").drop (1 * BATCH_SIZE)).take BATCH_SIZE :=
  ⟨(batch_partition_spec (fun _ _ => (.ok () : Except String Unit)) "src"
      (List.replicate 9 "frame")).1,
   (batch_partition_spec (fun _ _ => (.ok () : Except String Unit)) "src"
      (List.replicate 9 "frame")).2.2.1 1 (by norm_num [mkBatches_length, BATCH_SIZE])⟩

/-- C4: when the per-batch work function raises on some batch,
`multi_process_frame` still returns normally with that batch's error
captured as its logged outcome, every batch of the partition still carries
an outcome (all batches are processed), and every recorded outcome is
exactly the captured result of running the work function on that batch —
failures are logged, never propagated. -/
theorem batch_error_containment {ε : Type} (f : String → List String → Except ε Unit)
    (sp : String) (l : List String) (b0 : List String) (e : ε)
    (hb : b0 ∈ mkBatches l) (hf : f sp b0 = .error e) :
    (b0, some e) ∈ multi_process_frame f sp l ∧
    (∀ b ∈ mkBatches l, ∃ o, (b, o) ∈ multi_process_frame f sp l) ∧
    (∀ b o, (b, o) ∈ multi_process_frame f sp l →
      (o = none ∧ f sp b = .ok ()) ∨ ∃ e2, f sp b = .error e2 ∧ o = some e2) := by
  refine ⟨?_, ?_, ?_⟩
  · rw [multi_process_frame]
    apply List.mem_map.mpr
    exact ⟨b0, hb, by rw [hf]⟩
  · intro b hb2
    exact ⟨_, List.mem_map.mpr ⟨b, hb2, rfl⟩⟩
  · intro b o hmem
    rw [multi_process_frame] at hmem
    obtain ⟨b2, _, heq⟩ := List.mem_map.mp hmem
    cases hres : f sp b2 with
    | ok u =>
      left
      rw [hres] at heq
      obtain ⟨rfl, rfl⟩ := Prod.mk.injEq .. ▸ And.intro (congrArg Prod.fst heq).symm
        (congrArg Prod.snd heq).symm
      exact ⟨rfl, by rw [hres]⟩
    | error e2 =>
      right
      rw [hres] at heq
      have h1 := congrArg Prod.fst heq
      have h2 := congrArg Prod.snd heq
      simp only at h1 h2
      subst h1
      exact ⟨e2, hres, h2.symm⟩

/-- Witness for C4: nine frames split as `8 + 1`; the work function fails
on the final singleton batch, the failure is logged and both batches are
still processed. -/
theorem batch_error_containment_witness :
    (["f9"], some "boom") ∈ multi_process_frame
      (fun _ b => if b.length = 1 then (.error "boom" : Except String Unit) else .ok ())
      "src" ["f1", "f2", "f3", "f4", "f5", "f6", "f7", "f8", "f9"] ∧
    (∀ b ∈ mkBatches ["f1", "f2", "f3", "f4", "f5", "f6", "f7", "f8", "f9"],
      ∃ o, (b, o) ∈ multi_process_frame
        (fun _ b => if b.length = 1 then (.error "boom" : Except String Unit) else .ok ())
        "src" ["f1", "f2", "f3", "f4", "f5", "f6", "f7", "f8", "f9"]) ∧
    (∀ b o, (b, o) ∈ multi_process_frame
        (fun _ b => if b.length = 1 then (.error "boom" : Except String Unit) else .ok ())
        "src" ["f1", "f2", "f3", "f4", "f5", "f6", "f7", "f8", "f9"] →
      (o = none ∧ (if b.length = 1 then (.error "boom" : Except String Unit) else .ok ()) = .ok ()) ∨
      ∃ e2, (if b.length = 1 then (.error "boom" : Except String Unit) else .ok ()) = .error e2 ∧
        o = some e2) :=
  batch_error_containment
    (fun _ b => if b.length = 1 then (.error "boom" : Except String Unit) else .ok ())
    "src" ["f1", "f2", "f3", "f4", "f5", "f6", "f7", "f8", "f9"] ["f9"] "boom"
    (by
      have hbs : mkBatches ["f1", "f2", "f3", "f4", "f5", "f6", "f7", "f8", "f9"] =
          [["f1", "f2", "f3", "f4", "f5", "f6", "f7", "f8"], ["f9"]] := rfl
      rw [hbs]
      exact List.mem_cons_of_mem _ (List.mem_cons_self _ _))
    rfl

theorem removeFirstNamed_subset (fp : String) (ms : List PyModule) (m : PyModule)
    (h : m ∈ removeFirstNamed fp ms) : m ∈ ms := by
  rw [removeFirstNamed] at h
  cases hf : ms.find? (fun m2 => m2.name = fp) with
  | none => rw [hf] at h; exact h
  | some m2 => rw [hf] at h; exact List.mem_of_mem_erase h

theorem load_error_of_unknown (imp : String → Option PyModule) (fp : String)
    (h : imp fp = none) : load_frame_processor_module imp fp = .error () := by
  simp [load_frame_processor_module, h]

theorem load_error_of_missing_method (imp : String → Option PyModule) (fp : String)
    (m : PyModule) (meth : String) (him : imp fp = some m)
    (hmem : meth ∈ FRAME_PROCESSORS_INTERFACE) (hmiss : hasattr m meth = false) :
    load_frame_processor_module imp fp = .error () := by
  have hall : FRAME_PROCESSORS_INTERFACE.all (fun method_name => hasattr m method_name) = false := by
    rw [List.all_eq_false]
    exact ⟨meth, hmem, by rw [hmiss]; exact Bool.false_ne_true⟩
  simp [load_frame_processor_module, him, hall]

theorem loadAll_error (imp : String → Option PyModule) :
    ∀ fps : List String, (∃ fp ∈ fps, load_frame_processor_module imp fp = .error ()) →
    loadAll imp fps = .error ()
  | [], h => by
    obtain ⟨fp, hmem, _⟩ := h
    simp at hmem
  | fp :: fps, h => by
    obtain ⟨fp2, hmem, herr⟩ := h
    rcases List.mem_cons.mp hmem with rfl | hmem2
    · simp [loadAll, herr]
    · cases hload : load_frame_processor_module imp fp with
      | error e =>
        cases e
        simp [loadAll, hload]
      | ok m =>
        have hrec := loadAll_error imp fps ⟨fp2, hmem2, herr⟩
        simp [loadAll, hload, hrec]

theorem applyToggles_modules (imp : String → Option PyModule) (current_names : List String) :
    ∀ (toggles : List (String × Bool)) (acc : RegistryState) (m : PyModule),
      m ∈ (applyToggles imp current_names toggles acc).modules →
      m ∈ acc.modules ∨ ∃ fp, load_frame_processor_module imp fp = .ok m
  | [], _, _, hm => .inl hm
  | (fp, state) :: rest, acc, m, hm => by
    simp only [applyToggles] at hm
    by_cases h1 : state = true ∧ fp ∉ current_names
    · rw [if_pos h1] at hm
      cases hload : load_frame_processor_module imp fp with
      | ok m2 =>
        rw [hload] at hm
        rcases applyToggles_modules imp current_names rest _ m hm with hin | hex
        · rcases List.mem_append.mp hin with hin2 | hin2
          · exact .inl hin2
          · simp only [List.mem_singleton] at hin2
            exact .inr ⟨fp, by rw [hload, hin2]⟩
        · exact .inr hex
      | error e =>
        rw [hload] at hm
        exact applyToggles_modules imp current_names rest acc m hm
    · rw [if_neg h1] at hm
      by_cases h2 : state = false ∧ fp ∈ current_names
      · rw [if_pos h2] at hm
        rcases applyToggles_modules imp current_names rest _ m hm with hin | hex
        · exact .inl (removeFirstNamed_subset fp acc.modules m hin)
        · exact .inr hex
      · rw [if_neg h2] at hm
        exact applyToggles_modules imp current_names rest acc m hm

/-- C2 (amended): an unknown stage name (failed import) or a stage missing
one of the five interface methods makes `load_frame_processor_module` exit
fatally, and on the startup path — the initial population of the module
list inside `get_frame_processors_modules` — such a failure aborts the
whole call, hence the run, before any frame is processed.  On the UI
toggle path, however, the exit is caught: `set_frame_processors_modules_from_ui`
always returns, and every module of the resulting active list either was
already active or passed the full capability check — a failing stage is
skipped with a warning, it does not terminate the run.  (The original
claim — fatal termination on every path including the UI toggle path — is
refuted by the counterexample below.) -/
theorem stage_resolution_spec :
    (∀ (imp : String → Option PyModule) (fp : String), imp fp = none →
      load_frame_processor_module imp fp = .error ()) ∧
    (∀ (imp : String → Option PyModule) (fp : String) (m : PyModule) (meth : String),
      imp fp = some m → meth ∈ FRAME_PROCESSORS_INTERFACE → hasattr m meth = false →
      load_frame_processor_module imp fp = .error ()) ∧
    (∀ (imp : String → Option PyModule) (st : RegistryState) (fp : String),
      st.modules = [] → fp ∈ st.frame_processors →
      load_frame_processor_module imp fp = .error () →
      get_frame_processors_modules imp st = .error ()) ∧
    (∀ (imp : String → Option PyModule) (st : RegistryState) (m : PyModule),
      m ∈ (set_frame_processors_modules_from_ui imp st).modules →
      m ∈ st.modules ∨ ∃ fp, load_frame_processor_module imp fp = .ok m) := by
  refine ⟨load_error_of_unknown, load_error_of_missing_method, ?_, ?_⟩
  · intro imp st fp h0 hmem herr
    have hl := loadAll_error imp st.frame_processors ⟨fp, hmem, herr⟩
    rw [get_frame_processors_modules, if_pos h0, hl]
  · intro imp st m hm
    exact applyToggles_modules imp (st.modules.map PyModule.name) st.fp_ui st m hm

/-- Counterexample for C2 as stated: with no importable module at all, a
run whose UI toggles the stage `face_swapper` on does not terminate — the
`SystemExit` is caught on the UI path, the stage is skipped, and
`get_frame_processors_modules` returns normally with the state unchanged. -/
theorem stage_resolution_claim_cex :
    noImports "face_swapper" = none ∧
    get_frame_processors_modules noImports
        ⟨[], [], [("face_swapper", true)]⟩ =
      .ok ⟨[], [], [("face_swapper", true)]⟩ :=
  ⟨rfl, rfl⟩

/-- Witness for C2 (amended): a missing import and a half-implemented
module both fail resolution; a configured-but-unknown stage aborts the
startup path; a module present in the UI-adjusted active list satisfies
the disjunction. -/
theorem stage_resolution_witness :
    load_frame_processor_module noImports "ghost" = .error () ∧
    load_frame_processor_module
      (fun s => if s = "half" then some ⟨"half", true, true, false, false, false⟩ else none)
      "half" = .error () ∧
    get_frame_processors_modules noImports ⟨[], ["ghost"], []⟩ = .error () ∧
    ((⟨"face_swapper", true, true, true, true, true⟩ : PyModule) ∈
        (⟨[⟨"face_swapper", true, true, true, true, true⟩], [], []⟩ : RegistryState).modules ∨
      ∃ fp, load_frame_processor_module noImports fp =
        .ok ⟨"face_swapper", true, true, true, true, true⟩) :=
  ⟨stage_resolution_spec.1 noImports "ghost" rfl,
   stage_resolution_spec.2.1
     (fun s => if s = "half" then some ⟨"half", true, true, false, false, false⟩ else none)
     "half" ⟨"half", true, true, false, false, false⟩ "process_frame"
     (by simp) (by simp [FRAME_PROCESSORS_INTERFACE]) (by simp [hasattr]),
   stage_resolution_spec.2.2.1 noImports ⟨[], ["ghost"], []⟩ "ghost" rfl
     (by simp) (stage_resolution_spec.1 noImports "ghost" rfl),
   stage_resolution_spec.2.2.2 noImports
     ⟨[⟨"face_swapper", true, true, true, true, true⟩], [], []⟩
     ⟨"face_swapper", true, true, true, true, true⟩
     (List.mem_cons_self _ _)⟩

/-- C8: in video mode, every identity entry with at least one member face
receives as representative the member face of maximal detection
confidence across all its frames, and the representative image is that
face's bounding box cropped (`[y_min:y_max, x_min:x_max]`, coordinates
truncated by Python `int`) from its source frame, provided the frame image
reads back successfully. -/
theorem representative_face_max_score {Img : Type} (imread : String → Option Img)
    (crop : Img → ℤ → ℤ → ℤ → ℤ → Img) (stm : List (MapEntry Img)) (m : MapEntry Img)
    (_hm : m ∈ stm) (hpairs : framesWithFaces m.target_faces_in_frame ≠ [])
    (hread : ∀ loc, (imread loc).isSome) :
    default_target_face imread crop stm = stm.map (pickRepresentative imread crop) ∧
    ∃ fr bf, (fr, bf) ∈ framesWithFaces m.target_faces_in_frame ∧
      (∀ p ∈ framesWithFaces m.target_faces_in_frame, p.2.det_score ≤ bf.det_score) ∧
      ∃ img, imread fr.location = some img ∧
        (pickRepresentative imread crop m).target =
          some (crop img (pyInt bf.bbox.2.1) (pyInt bf.bbox.2.2.2)
            (pyInt bf.bbox.1) (pyInt bf.bbox.2.2.1), bf) := by
  refine ⟨rfl, ?_⟩
  cases hp : framesWithFaces m.target_faces_in_frame with
  | nil => exact absurd hp hpairs
  | cons p ps =>
    obtain ⟨img, himg⟩ := Option.isSome_iff_exists.mp
      (hread (pyMax (fun q => q.2.det_score) p ps).1.location)
    refine ⟨(pyMax (fun q => q.2.det_score) p ps).1,
      (pyMax (fun q => q.2.det_score) p ps).2, ?_, ?_, img, himg, ?_⟩
    · have hmem := pyMax_mem (fun q => q.2.det_score) ps p
      simpa using hmem
    · intro q hq
      exact pyMax_le (fun q2 => q2.2.det_score) ps p q hq
    · have hred : pickRepresentative imread crop m =
          match imread (pyMax (fun q => q.2.det_score) p ps).1.location with
          | none => m
          | some img2 => { m with target := some (crop img2
              (pyInt (pyMax (fun q => q.2.det_score) p ps).2.bbox.2.1)
              (pyInt (pyMax (fun q => q.2.det_score) p ps).2.bbox.2.2.2)
              (pyInt (pyMax (fun q => q.2.det_score) p ps).2.bbox.1)
              (pyInt (pyMax (fun q => q.2.det_score) p ps).2.bbox.2.2.1),
              (pyMax (fun q => q.2.det_score) p ps).2) } := by
        simp only [pickRepresentative, hp]
      rw [hred, himg]

/-- Witness for C8: a `0.9`-confidence face in frame 1 and a
`0.95`-confidence face of the same identity in frame 3; the claim yields a
representative of maximal confidence over both. -/
theorem representative_face_witness :
    default_target_face (fun _ => some (0 : ℕ)) (fun _ _ _ _ _ => 42)
        [⟨0, [⟨1, [⟨9/10, (1, 2, 3, 4)⟩], "frame1"⟩,
              ⟨3, [⟨19/20, (5, 6, 7, 8)⟩], "frame3"⟩], none⟩] =
      [⟨0, [⟨1, [⟨9/10, (1, 2, 3, 4)⟩], "frame1"⟩,
            ⟨3, [⟨19/20, (5, 6, 7, 8)⟩], "frame3"⟩], none⟩].map
        (pickRepresentative (fun _ => some (0 : ℕ)) (fun _ _ _ _ _ => 42)) ∧
    ∃ fr bf, (fr, bf) ∈ framesWithFaces
        (⟨0, [⟨1, [⟨9/10, (1, 2, 3, 4)⟩], "frame1"⟩,
              ⟨3, [⟨19/20, (5, 6, 7, 8)⟩], "frame3"⟩], none⟩ :
          MapEntry ℕ).target_faces_in_frame ∧
      (∀ p ∈ framesWithFaces
          (⟨0, [⟨1, [⟨9/10, (1, 2, 3, 4)⟩], "frame1"⟩,
                ⟨3, [⟨19/20, (5, 6, 7, 8)⟩], "frame3"⟩], none⟩ :
            MapEntry ℕ).target_faces_in_frame, p.2.det_score ≤ bf.det_score) ∧
      ∃ img, (fun _ => some (0 : ℕ)) fr.location = some img ∧
        (pickRepresentative (fun _ => some (0 : ℕ)) (fun _ _ _ _ _ => 42)
          ⟨0, [⟨1, [⟨9/10, (1, 2, 3, 4)⟩], "frame1"⟩,
               ⟨3, [⟨19/20, (5, 6, 7, 8)⟩], "frame3"⟩], none⟩).target =
          some ((fun _ _ _ _ _ => 42 : ℕ → ℤ → ℤ → ℤ → ℤ → ℕ) img (pyInt bf.bbox.2.1)
            (pyInt bf.bbox.2.2.2) (pyInt bf.bbox.1) (pyInt bf.bbox.2.2.1), bf) :=
  representative_face_max_score (fun _ => some (0 : ℕ)) (fun _ _ _ _ _ => 42)
    [⟨0, [⟨1, [⟨9/10, (1, 2, 3, 4)⟩], "frame1"⟩,
          ⟨3, [⟨19/20, (5, 6, 7, 8)⟩], "frame3"⟩], none⟩]
    ⟨0, [⟨1, [⟨9/10, (1, 2, 3, 4)⟩], "frame1"⟩,
         ⟨3, [⟨19/20, (5, 6, 7, 8)⟩], "frame3"⟩], none⟩
    (List.mem_cons_self _ _) (by simp [framesWithFaces]) (fun _ => rfl)

/-- C10: `get_one_face` returns the detected face whose bounding box has
the smallest left `x`-coordinate among the faces the analyser reports
(selection depends on horizontal position only), and `None` when zero
faces are detected. -/
theorem get_one_face_leftmost (faces : List DetFace) :
    (faces = [] → get_one_face faces = none) ∧
    ∀ f0 fs, faces = f0 :: fs →
      ∃ f, get_one_face faces = some f ∧ f ∈ faces ∧
        ∀ g ∈ faces, f.bbox.1 ≤ g.bbox.1 := by
  constructor
  · intro h; rw [h]; rfl
  · intro f0 fs h
    subst h
    exact ⟨pyMin (fun x => x.bbox.1) f0 fs, rfl, pyMin_mem (fun x => x.bbox.1) fs f0,
      fun g hg => pyMin_le (fun x => x.bbox.1) fs f0 g hg⟩

/-- Witness for C10: of two faces, the lower-confidence one at `x = 2` is
eligible over the higher-confidence one at `x = 5`; the empty detection
list yields `None`. -/
theorem get_one_face_witness :
    (∃ f, get_one_face [⟨9/10, (5, 0, 6, 1)⟩, ⟨1/2, (2, 0, 3, 1)⟩] = some f ∧
      f ∈ [⟨9/10, (5, 0, 6, 1)⟩, (⟨1/2, (2, 0, 3, 1)⟩ : DetFace)] ∧
      ∀ g ∈ [⟨9/10, (5, 0, 6, 1)⟩, (⟨1/2, (2, 0, 3, 1)⟩ : DetFace)],
        f.bbox.1 ≤ g.bbox.1) ∧
    get_one_face [] = none :=
  ⟨(get_one_face_leftmost [⟨9/10, (5, 0, 6, 1)⟩, ⟨1/2, (2, 0, 3, 1)⟩]).2
     ⟨9/10, (5, 0, 6, 1)⟩ [⟨1/2, (2, 0, 3, 1)⟩] rfl,
   (get_one_face_leftmost []).1 rfl⟩
